import Mathlib

/-!
# deliveryx: basket and order handlers (`handlers/basket_handlers.go`)

A shallow embedding of the basket and order logic of the handlers, and the
properties of it that the specification states.

Modelling conventions.

* A Go `map[K]V` is an association list `GoMap K V`.  The order of the list is
  the order in which a `range` loop visits the entries; Go leaves that order
  unspecified, so every statement below is made for an arbitrary list, hence for
  every iteration order.  A Go map holds each key once (`GoMap.WF`); the
  operations keep that, and the theorems that need it assume it.
* A quantity is a Go `int`, 64 bits wide: an integer between `-2^63` and
  `2^63 - 1`.  The increment of `BasketAdd` wraps around as Go's does
  (`wrapInt64`); the decrement of `BasketRemove` is taken only on a quantity
  above 1, where it cannot wrap.
* The total is computed by the source in `float64` from prices parsed at
  `float32` precision.  That arithmetic is a parameter (`Float64Ops`): the
  embedding keeps the shape of the computation and fixes none of its numerics.
* A record of the order store is kept as the sequence of orders handed to
  `json.MarshalIndent`; the JSON text itself is not modelled.  A missing or
  unreadable record reads as the empty sequence, as in `OrdersGet`.
* Session lookup, authentication, form decoding and the HTTP response are the
  web layer; the embedding starts from the decoded form and the basket found in
  the session.
-/

namespace Deliveryx

/-! ## Go maps -/

/-- A Go `map[K]V`, as the list of its entries in iteration order. -/
abbrev GoMap (κ ν : Type) := List (κ × ν)

namespace GoMap

variable {κ ν : Type} [DecidableEq κ]

/-- The comma-ok read `v, ok := m[k]`. -/
def lookup : GoMap κ ν → κ → Option ν
  | [], _ => none
  | (k', v) :: rest, k => if k' = k then some v else lookup rest k

/-- The assignment `m[k] = v`. -/
def store : GoMap κ ν → κ → ν → GoMap κ ν
  | [], k, v => [(k, v)]
  | (k', v') :: rest, k, v =>
    if k' = k then (k, v) :: rest else (k', v') :: store rest k v

/-- The builtin `delete(m, k)`. -/
def delete (m : GoMap κ ν) (k : κ) : GoMap κ ν :=
  m.filter (fun e => decide (e.1 ≠ k))

/-- The keys of a map, in iteration order. -/
def keys (m : GoMap κ ν) : List κ := m.map Prod.fst

/-- A Go map holds every key at most once. -/
def WF (m : GoMap κ ν) : Prop := (keys m).Nodup

instance (m : GoMap κ ν) : Decidable (WF m) :=
  inferInstanceAs (Decidable (keys m).Nodup)

end GoMap

/-- The plain read `m[k]` of an `int`-valued map: the zero value when absent. -/
def GoMap.index {κ : Type} [DecidableEq κ] (m : GoMap κ Int) (k : κ) : Int :=
  (GoMap.lookup m k).getD 0

/-- The Go `int` (64 bits, two's complement) that an arithmetic result `z`
wraps around to. -/
def wrapInt64 (z : Int) : Int := (z + 2 ^ 63) % 2 ^ 64 - 2 ^ 63

/-! ## Data model -/

/-- A menu item as decoded from the form.  The type is declared in another file
of the package; these are the fields the handlers read. -/
structure Item where
  ItemName : String
  ItemPrice : String
  ItemLink : String
  RestLink : String
  deriving DecidableEq, Repr

/-- Basket holds items added to basket from specified restaurant. -/
structure Basket where
  RestLink : String
  Items : GoMap Item Int
  TotalAmount : String
  UserName : String
  deriving DecidableEq, Repr

/-- Order holds order details. -/
structure Order where
  Completed : Bool
  ItemsInfo : GoMap String Int
  Buyer : String
  TotalAmount : String
  deriving DecidableEq, Repr

/-- The `float64` operations `CalculateTotalAmount` uses, over a carrier `F`. -/
structure Float64Ops (F : Type) where
  /-- The constant `0.00`. -/
  zero : F
  /-- The value of `strconv.ParseFloat(s, 32)`, its error dropped. -/
  parseFloat32 : String → F
  /-- The conversion `float64(amount)`. -/
  ofInt : Int → F
  /-- The product of two `float64`. -/
  mul : F → F → F
  /-- The sum of two `float64`. -/
  add : F → F → F
  /-- The text of `fmt.Sprintf("%.2f", total)`. -/
  sprintf2 : F → String

/-- An unevaluated `float64` expression. -/
inductive FloatTerm where
  | zero : FloatTerm
  | parsed : String → FloatTerm
  | ofInt : Int → FloatTerm
  | mul : FloatTerm → FloatTerm → FloatTerm
  | add : FloatTerm → FloatTerm → FloatTerm
  deriving DecidableEq, Repr

/-- The text of an unevaluated expression. -/
def FloatTerm.render : FloatTerm → String
  | .zero => "0.00"
  | .parsed s => "float32(" ++ s ++ ")"
  | .ofInt n => "float64(" ++ toString n ++ ")"
  | .mul a b => "(" ++ a.render ++ " * " ++ b.render ++ ")"
  | .add a b => "(" ++ a.render ++ " + " ++ b.render ++ ")"

/-- The operations that record the computation instead of evaluating it: the
total then reads as the expression the source evaluates.  Used to run the
handlers on examples. -/
def Float64Ops.symbolic : Float64Ops FloatTerm where
  zero := .zero
  parseFloat32 := .parsed
  ofInt := .ofInt
  mul := .mul
  add := .add
  sprintf2 := fun t => "%.2f of " ++ t.render

/-! ## Basket handlers -/

section Handlers

variable {F : Type}

/-- CalculateTotalAmount calculates total amount for products in the basket. -/
def CalculateTotalAmount (fl : Float64Ops F) (basket : Basket) : Basket :=
  let total := basket.Items.foldl
    (fun total e =>
      let itemPriceFloat := fl.parseFloat32 e.1.ItemPrice
      let itemTotal := fl.mul (fl.ofInt e.2) itemPriceFloat
      fl.add total itemTotal)
    fl.zero
  { basket with TotalAmount := fl.sprintf2 total }

/-- The basket `BasketAdd` creates when the session has none. -/
def newBasket (restLink userName : String) : Basket :=
  { RestLink := restLink, Items := [], TotalAmount := "0.00", UserName := userName }

/-- The map key the handlers build from the form: name, price and link; the
other fields of `Item` keep their zero value. -/
def itemOf (details : Item) : Item :=
  { ItemName := details.ItemName, ItemPrice := details.ItemPrice,
    ItemLink := details.ItemLink, RestLink := "" }

/-- BasketAdd adds items to the basket.  `slot` is `session.Values["basket"]`,
`userName` is `GetUserName(request)`, `details` the decoded form. -/
def BasketAdd (fl : Float64Ops F) (userName : String) (slot : Option Basket)
    (details : Item) : Basket :=
  -- If no basket exists for the session then create one
  let basket := match slot with
    | none => newBasket details.RestLink userName
    | some b => b
  -- a different restaurant clears the basket
  let basket :=
    if basket.RestLink ≠ details.RestLink then
      { basket with RestLink := details.RestLink, Items := [] }
    else basket
  let item := itemOf details
  let basket := match GoMap.lookup basket.Items item with
    | none => { basket with Items := GoMap.store basket.Items item 1 }
    | some q => { basket with Items := GoMap.store basket.Items item (wrapInt64 (q + 1)) }
  CalculateTotalAmount fl basket

/-- GetBasket returns basket contents for given session: the stored basket, or
the zero `Basket` when the slot is empty. -/
def GetBasket (slot : Option Basket) : Basket :=
  slot.getD { RestLink := "", Items := [], TotalAmount := "", UserName := "" }

/-- BasketEmpty empties the basket. -/
def BasketEmpty (slot : Option Basket) : Basket :=
  let basket := GetBasket slot
  { basket with Items := [], TotalAmount := "0.00" }

/-- BasketRemove removes item from the basket or decreases its amount.
`basket` is the basket retrieved from the session. -/
def BasketRemove (fl : Float64Ops F) (basket : Basket) (details : Item) : Basket :=
  let item := itemOf details
  let basket :=
    if GoMap.index basket.Items item > 1 then
      { basket with Items := GoMap.store basket.Items item (GoMap.index basket.Items item - 1) }
    else
      { basket with Items := GoMap.delete basket.Items item }
  CalculateTotalAmount fl basket

end Handlers

/-! ## Order store -/

/-- The records of the order store by file name: the sequence of orders each
record holds (empty for a record that is missing or does not decode). -/
abbrev Files := String → List Order

/-- The call `ioutil.WriteFile(name, data, os.ModePerm)`: the record is
overwritten whole. -/
def writeFile (fs : Files) (name : String) (data : List Order) : Files :=
  fun n => if n = name then data else fs n

/-- The pending record of a restaurant, `orders/<restLink>.json`. -/
def ordersFileName (restLink : String) : String :=
  "orders/" ++ restLink ++ ".json"

/-- The completed record of a restaurant, `orders/completed-<restLink>.json`. -/
def completedFileName (restLink : String) : String :=
  "orders/completed-" ++ restLink ++ ".json"

/-- The `Order` cells allocated so far; a `*Order` is an index into them. -/
abbrev Heap := List Order

/-- A `[]*Order`: every element is `nil` or the address of a cell. -/
abbrev OrderSlice := List (Option Nat)

/-- The call `json.Unmarshal(file, &orders)` into an empty slice: one fresh cell
for each order of the record, and the slice of their addresses. -/
def unmarshalOrders (heap : Heap) (data : List Order) : Heap × OrderSlice :=
  (heap ++ data, (List.range data.length).map (fun k => some (heap.length + k)))

/-- The orders `json.MarshalIndent` writes for a slice: the cells its elements
point to.  (A `nil` element would be written as `null`; the slices the handlers
marshal hold none.) -/
def marshalOrders (heap : Heap) (orders : OrderSlice) : List Order :=
  orders.filterMap (fun p => p.bind (fun a => heap[a]?))

/-- OrdersGet returns slice of orders. -/
def OrdersGet (heap : Heap) (fs : Files) (restLink : String) : Heap × OrderSlice :=
  unmarshalOrders heap (fs (ordersFileName restLink))

/-- The order `BasketSendOrder` fills from the basket (the order struct and the
loop over `basket.Items`). -/
def orderOf (basket : Basket) : Order :=
  let order : Order :=
    { Completed := false, ItemsInfo := [], Buyer := basket.UserName,
      TotalAmount := basket.TotalAmount }
  { order with
    ItemsInfo := basket.Items.foldl
      (fun info e => GoMap.store info e.1.ItemName e.2) order.ItemsInfo }

/-- BasketSendOrder sends users order to the restaurant and clears their
basket.  Returns the order store and the basket left in the session. -/
def BasketSendOrder (fs : Files) (basket : Basket) : Files × Basket :=
  let heap : Heap := [orderOf basket]
  let order : Option Nat := some 0
  let (heap, orders) := OrdersGet heap fs basket.RestLink
  let orders := orders ++ [order]
  let fs := writeFile fs (ordersFileName basket.RestLink) (marshalOrders heap orders)
  (fs, BasketEmpty (some basket))

/-- The builtin `copy(dst, src)` on overlapping or disjoint slices: the new
contents of `dst`. -/
def goCopy {α : Type} (dst src : List α) : List α :=
  src.take dst.length ++ dst.drop src.length

/-- A Go run-time panic. -/
inductive RuntimePanic where
  /-- The panic `slice bounds out of range [low:length]`. -/
  | sliceBoundsOutOfRange (low : Int) (length : Nat)
  /-- The panic `index out of range`. -/
  | indexOutOfRange (index : Int) (length : Nat)
  /-- The panic `invalid memory address or nil pointer dereference`. -/
  | nilDereference
  deriving DecidableEq, Repr

/-- How a handler ends. -/
inductive Outcome where
  /-- The handler answered `http.Redirect(..., location, http.StatusFound)`. -/
  | redirect (location : String)
  /-- The handler answered `http.Error(...)`: the explicit error report of the
  handlers of this file. -/
  | httpError (status : Nat) (message : String)
  /-- The handler was unwound by a run-time panic. -/
  | runtimePanic (p : RuntimePanic)
  deriving DecidableEq, Repr

/-- The statement `completedOrder.Completed = true` on the cell at `a`. -/
def setCompleted (heap : Heap) (a : Nat) : Heap :=
  match heap[a]? with
  | none => heap
  | some o => heap.set a { o with Completed := true }

/-- OrderComplete moves an order to the file with completed orders.  `index` is
the value of `strconv.Atoi(request.FormValue("index"))`, `restLink` that of
`GetRestLink(request)`. -/
def OrderComplete (fs : Files) (restLink : String) (index : Int) : Files × Outcome :=
  let (heap, orders) := OrdersGet [] fs restLink
  let n := orders.length
  -- copy(orders[index:], orders[index+1:])
  if index < 0 ∨ (n : Int) < index then
    (fs, .runtimePanic (.sliceBoundsOutOfRange index n))
  else if (n : Int) < index + 1 then
    (fs, .runtimePanic (.sliceBoundsOutOfRange (index + 1) n))
  else
    let i := index.toNat
    let orders := orders.take i ++ goCopy (orders.drop i) (orders.drop (i + 1))
    -- completedOrder := orders[len(orders)-1]
    match orders[n - 1]? with
    | none => (fs, .runtimePanic (.indexOutOfRange ((n : Int) - 1) n))
    | some none => (fs, .runtimePanic .nilDereference)
    | some (some completedOrder) =>
      let heap := setCompleted heap completedOrder
      let orders := orders.set (n - 1) none
      let orders := orders.take (n - 1)
      -- Save orders to json file
      let fs := writeFile fs (ordersFileName restLink) (marshalOrders heap orders)
      -- Get completed orders from the file
      let (heap, ordersCompleted) := unmarshalOrders heap (fs (completedFileName restLink))
      let ordersCompleted := ordersCompleted ++ [some completedOrder]
      -- Save completed order to json file
      let fs := writeFile fs (completedFileName restLink) (marshalOrders heap ordersCompleted)
      (fs, .redirect "/orders")

/-! ## Running the basket handlers -/

/-- A request to one of the basket handlers. -/
inductive BasketOp where
  | add (details : Item)
  | remove (details : Item)
  | empty
  deriving DecidableEq, Repr

section Run

variable {F : Type}

/-- The basket a request leaves in the session. -/
def BasketOp.apply (fl : Float64Ops F) (userName : String) (basket : Basket) :
    BasketOp → Basket
  | .add details => BasketAdd fl userName (some basket) details
  | .remove details => BasketRemove fl basket details
  | .empty => BasketEmpty (some basket)

/-- The basket after a sequence of requests. -/
def runOps (fl : Float64Ops F) (userName : String) (basket : Basket)
    (ops : List BasketOp) : Basket :=
  ops.foldl (BasketOp.apply fl userName) basket

end Run

/-! ## Examples -/

/-- A pending order. -/
def orderA : Order :=
  { Completed := false, ItemsInfo := [("Burger", 2)], Buyer := "alice", TotalAmount := "10.00" }

/-- A second order. -/
def orderB : Order :=
  { Completed := false, ItemsInfo := [("Fries", 1)], Buyer := "bob", TotalAmount := "2.50" }

/-- A third order. -/
def orderC : Order :=
  { Completed := false, ItemsInfo := [("Cola", 3)], Buyer := "carol", TotalAmount := "4.50" }

/-- An order store whose only record is the pending record of restaurant `r`. -/
def storeOf (pending : List Order) : Files :=
  writeFile (fun _ => []) (ordersFileName "r") pending

/-- A burger on the menu of restaurant `r`, as the form posts it. -/
def burger : Item :=
  { ItemName := "Burger", ItemPrice := "5.00", ItemLink := "/r/burger", RestLink := "r" }

/-- Fries on the menu of restaurant `r`. -/
def fries : Item :=
  { ItemName := "Fries", ItemPrice := "2.50", ItemLink := "/r/fries", RestLink := "r" }

/-- A pizza on the menu of restaurant `s`. -/
def pizza : Item :=
  { ItemName := "Pizza", ItemPrice := "8.00", ItemLink := "/s/pizza", RestLink := "s" }

/-- The basket of alice at restaurant `r`: two burgers and one portion of fries. -/
def aliceBasket : Basket :=
  { RestLink := "r", Items := [(itemOf burger, 2), (itemOf fries, 1)],
    TotalAmount := "12.50", UserName := "alice" }

/-- A basket whose burger entry holds the largest `int`, `2^63 - 1`. -/
def maxBasket : Basket :=
  { RestLink := "r", Items := [(itemOf burger, 9223372036854775807)],
    TotalAmount := "46116860184273879040.00", UserName := "alice" }

/-- A basket with two menu entries of the same name: a burger at 5.00 twice and
a burger at 6.00 once. -/
def sameNameBasket : Basket :=
  { RestLink := "r",
    Items := [({ ItemName := "Burger", ItemPrice := "5.00", ItemLink := "/r/burger",
                 RestLink := "" }, 2),
              ({ ItemName := "Burger", ItemPrice := "6.00", ItemLink := "/r/burger-xl",
                 RestLink := "" }, 1)],
    TotalAmount := "16.00", UserName := "alice" }

/-! ## Facts about Go maps -/

namespace GoMap

variable {κ ν : Type} [DecidableEq κ]

theorem lookup_store (m : GoMap κ ν) (k : κ) (v : ν) (k' : κ) :
    lookup (store m k v) k' = if k' = k then some v else lookup m k' := by
  induction m with
  | nil =>
    by_cases h : k' = k
    · simp [store, lookup, h]
    · have h' : ¬ k = k' := fun e => h e.symm
      simp [store, lookup, h, h']
  | cons e rest ih =>
    obtain ⟨k0, v0⟩ := e
    by_cases h0 : k0 = k
    · subst h0
      by_cases h : k' = k0
      · subst h
        simp [store, lookup]
      · have h' : ¬ k0 = k' := fun e => h e.symm
        simp [store, lookup, h, h']
    · by_cases h : k0 = k'
      · subst h
        simp [store, lookup, h0]
      · simp [store, lookup, h0, h, ih]

theorem delete_cons (k0 : κ) (v0 : ν) (rest : GoMap κ ν) (k : κ) :
    delete ((k0, v0) :: rest) k
      = if k0 = k then delete rest k else (k0, v0) :: delete rest k := by
  by_cases h0 : k0 = k
  · simp [delete, List.filter_cons, h0]
  · simp [delete, List.filter_cons, h0]

theorem lookup_delete (m : GoMap κ ν) (k k' : κ) :
    lookup (delete m k) k' = if k' = k then none else lookup m k' := by
  induction m with
  | nil => simp [delete, lookup]
  | cons e rest ih =>
    obtain ⟨k0, v0⟩ := e
    rw [delete_cons]
    by_cases h0 : k0 = k
    · subst h0
      by_cases h : k' = k0
      · subst h
        simpa using ih
      · have h' : ¬ k0 = k' := fun e => h e.symm
        simpa [lookup, h, h'] using ih
    · by_cases h : k0 = k'
      · subst h
        simp [lookup, h0]
      · simpa [lookup, h0, h] using ih

theorem delete_eq_self (m : GoMap κ ν) (k : κ) (h : lookup m k = none) :
    delete m k = m := by
  induction m with
  | nil => rfl
  | cons e rest ih =>
    obtain ⟨k0, v0⟩ := e
    by_cases h0 : k0 = k
    · simp [lookup, h0] at h
    · simp only [lookup, h0, if_false] at h
      rw [delete_cons, if_neg h0, ih h]

theorem store_store (m : GoMap κ ν) (k : κ) (v w : ν) :
    store (store m k v) k w = store m k w := by
  induction m with
  | nil => simp [store]
  | cons e rest ih =>
    obtain ⟨k0, v0⟩ := e
    by_cases h0 : k0 = k
    · simp [store, h0]
    · simp [store, h0, ih]

theorem store_eq_self (m : GoMap κ ν) (k : κ) (v : ν) (h : lookup m k = some v) :
    store m k v = m := by
  induction m with
  | nil => simp [lookup] at h
  | cons e rest ih =>
    obtain ⟨k0, v0⟩ := e
    by_cases h0 : k0 = k
    · subst h0
      simp [lookup] at h
      simp [store, h]
    · simp only [lookup, h0, if_false] at h
      simp [store, h0, ih h]

theorem delete_store_of_absent (m : GoMap κ ν) (k : κ) (v : ν) (h : lookup m k = none) :
    delete (store m k v) k = m := by
  induction m with
  | nil => simp [store, delete]
  | cons e rest ih =>
    obtain ⟨k0, v0⟩ := e
    by_cases h0 : k0 = k
    · simp [lookup, h0] at h
    · simp only [lookup, h0, if_false] at h
      simp only [store, h0, if_false]
      rw [delete_cons, if_neg h0, ih h]

theorem mem_store (m : GoMap κ ν) (k : κ) (v : ν) (e : κ × ν) (h : e ∈ store m k v) :
    e = (k, v) ∨ e ∈ m := by
  induction m with
  | nil => simpa [store] using h
  | cons e0 rest ih =>
    obtain ⟨k0, v0⟩ := e0
    by_cases h0 : k0 = k
    · simp only [store, h0, if_true, List.mem_cons] at h
      rcases h with h | h
      · exact Or.inl h
      · exact Or.inr (List.mem_cons_of_mem _ h)
    · simp only [store, h0, if_false, List.mem_cons] at h
      rcases h with h | h
      · exact Or.inr (by simp [h])
      · rcases ih h with h | h
        · exact Or.inl h
        · exact Or.inr (List.mem_cons_of_mem _ h)

theorem mem_delete (m : GoMap κ ν) (k : κ) (e : κ × ν) (h : e ∈ delete m k) : e ∈ m :=
  (List.mem_filter.mp h).1

theorem keys_store (m : GoMap κ ν) (k : κ) (v : ν) (k' : κ) (h : k' ∈ keys (store m k v)) :
    k' = k ∨ k' ∈ keys m := by
  obtain ⟨e, he, rfl⟩ := List.mem_map.mp h
  rcases mem_store m k v e he with h | h
  · exact Or.inl (by rw [h])
  · exact Or.inr (List.mem_map.mpr ⟨e, h, rfl⟩)

theorem WF_store (m : GoMap κ ν) (k : κ) (v : ν) (h : WF m) : WF (store m k v) := by
  induction m with
  | nil => simp [WF, keys, store]
  | cons e rest ih =>
    obtain ⟨k0, v0⟩ := e
    have hc : k0 ∉ keys rest ∧ WF rest := by
      simpa [WF, keys] using h
    by_cases h0 : k0 = k
    · subst h0
      simpa [WF, keys, store] using h
    · have hk : k0 ∉ keys (store rest k v) := by
        intro hmem
        rcases keys_store rest k v k0 hmem with h1 | h1
        · exact h0 h1
        · exact hc.1 h1
      have hw : WF (store rest k v) := ih hc.2
      have : (k0 :: keys (store rest k v)).Nodup := List.nodup_cons.mpr ⟨hk, hw⟩
      simpa [WF, keys, store, h0] using this

theorem WF_delete (m : GoMap κ ν) (k : κ) (h : WF m) : WF (delete m k) := by
  have hs : List.Sublist (delete m k) m := List.filter_sublist m
  exact List.Nodup.sublist (List.Sublist.map Prod.fst hs) h

theorem lookup_eq_none_iff (m : GoMap κ ν) (k : κ) : lookup m k = none ↔ k ∉ keys m := by
  induction m with
  | nil => simp [lookup, keys]
  | cons e rest ih =>
    obtain ⟨k0, v0⟩ := e
    by_cases h0 : k0 = k
    · simp [lookup, keys, h0]
    · have h0' : ¬ k = k0 := fun e => h0 e.symm
      have ih' : lookup rest k = none ↔ k ∉ List.map Prod.fst rest := ih
      simp [lookup, keys, h0, h0', ih']

theorem lookup_of_mem (m : GoMap κ ν) (h : WF m) (k : κ) (v : ν) (hm : (k, v) ∈ m) :
    lookup m k = some v := by
  induction m with
  | nil => simp at hm
  | cons e rest ih =>
    obtain ⟨k0, v0⟩ := e
    have hc : k0 ∉ keys rest ∧ WF rest := by
      simpa [WF, keys] using h
    rcases List.mem_cons.mp hm with h1 | h1
    · have hk : k = k0 := congrArg Prod.fst h1
      have hv : v = v0 := congrArg Prod.snd h1
      simp [lookup, hk, hv]
    · have hne : k0 ≠ k := by
        intro e
        apply hc.1
        rw [e]
        exact List.mem_map.mpr ⟨(k, v), h1, rfl⟩
      simp [lookup, hne, ih hc.2 h1]

theorem mem_of_lookup (m : GoMap κ ν) (k : κ) (v : ν) (h : lookup m k = some v) :
    (k, v) ∈ m := by
  induction m with
  | nil => simp [lookup] at h
  | cons e rest ih =>
    obtain ⟨k0, v0⟩ := e
    by_cases h0 : k0 = k
    · simp [lookup, h0] at h
      simp [h0, h]
    · simp only [lookup, h0, if_false] at h
      exact List.mem_cons_of_mem _ (ih h)

end GoMap

/-! ## Basket handlers: the items map -/

section BasketFacts

variable {F : Type}

theorem CalculateTotalAmount_Items (fl : Float64Ops F) (b : Basket) :
    (CalculateTotalAmount fl b).Items = b.Items := rfl

theorem CalculateTotalAmount_RestLink (fl : Float64Ops F) (b : Basket) :
    (CalculateTotalAmount fl b).RestLink = b.RestLink := rfl

theorem index_of_lookup_none (m : GoMap Item Int) (x : Item) (h : GoMap.lookup m x = none) :
    GoMap.index m x = 0 := by
  simp [GoMap.index, h]

theorem index_of_lookup_some (m : GoMap Item Int) (x : Item) (q : Int)
    (h : GoMap.lookup m x = some q) : GoMap.index m x = q := by
  simp [GoMap.index, h]

theorem wrapInt64_eq (z : Int) (h1 : -2 ^ 63 ≤ z) (h2 : z < 2 ^ 63) : wrapInt64 z = z := by
  unfold wrapInt64
  omega

theorem wrapInt64_one : wrapInt64 (0 + 1) = 1 := by decide

theorem BasketAdd_Items_eq (fl : Float64Ops F) (userName : String) (b : Basket)
    (details : Item) :
    (BasketAdd fl userName (some b) details).Items
      = GoMap.store (if b.RestLink = details.RestLink then b.Items else []) (itemOf details)
          (wrapInt64 (GoMap.index (if b.RestLink = details.RestLink then b.Items else [])
            (itemOf details) + 1)) := by
  by_cases hl : b.RestLink = details.RestLink
  · cases hq : GoMap.lookup b.Items (itemOf details) with
    | none =>
      simp only [BasketAdd, CalculateTotalAmount, hl, hq, GoMap.index, ne_eq, not_true_eq_false,
        if_false, if_true, Option.getD_none, wrapInt64_one]
    | some q =>
      simp only [BasketAdd, CalculateTotalAmount, hl, hq, GoMap.index, ne_eq, not_true_eq_false,
        if_false, if_true, Option.getD_some]
  · simp only [BasketAdd, CalculateTotalAmount, hl, GoMap.index, GoMap.lookup, ne_eq,
      not_false_eq_true, if_true, if_false, Option.getD_none, wrapInt64_one]

theorem BasketAdd_RestLink_eq (fl : Float64Ops F) (userName : String) (b : Basket)
    (details : Item) :
    (BasketAdd fl userName (some b) details).RestLink = details.RestLink := by
  by_cases hl : b.RestLink = details.RestLink
  · cases hq : GoMap.lookup b.Items (itemOf details) with
    | none => simp [BasketAdd, CalculateTotalAmount, hl, hq]
    | some q => simp [BasketAdd, CalculateTotalAmount, hl, hq]
  · simp [BasketAdd, CalculateTotalAmount, hl, GoMap.lookup]

theorem BasketRemove_Items_eq (fl : Float64Ops F) (b : Basket) (details : Item) :
    (BasketRemove fl b details).Items
      = if GoMap.index b.Items (itemOf details) > 1 then
          GoMap.store b.Items (itemOf details) (GoMap.index b.Items (itemOf details) - 1)
        else GoMap.delete b.Items (itemOf details) := by
  by_cases h : GoMap.index b.Items (itemOf details) > 1
  · simp [BasketRemove, CalculateTotalAmount, h]
  · simp [BasketRemove, CalculateTotalAmount, h]

/-- The total `BasketAdd` leaves is computed from the entries it leaves. -/
theorem BasketAdd_TotalAmount (fl : Float64Ops F) (userName : String) (slot : Option Basket)
    (details : Item) :
    BasketAdd fl userName slot details
      = CalculateTotalAmount fl (BasketAdd fl userName slot details) := by
  simp only [BasketAdd, CalculateTotalAmount]

/-- The total `BasketRemove` leaves is computed from the entries it leaves. -/
theorem BasketRemove_TotalAmount (fl : Float64Ops F) (b : Basket) (details : Item) :
    BasketRemove fl b details = CalculateTotalAmount fl (BasketRemove fl b details) := by
  simp only [BasketRemove, CalculateTotalAmount]

theorem BasketEmpty_Items_eq (slot : Option Basket) : (BasketEmpty slot).Items = [] := rfl

/-- The invariant of the basket, with the bound that keeps it: while fewer than
`2^63 - 1` requests were served, a request leaves every quantity at least one and
raises none by more than one. -/
theorem BasketOp.apply_quantities (fl : Float64Ops F) (userName : String) (b : Basket)
    (op : BasketOp) (k : Int) (hk : 0 ≤ k) (hmax : k + 1 < 2 ^ 63)
    (h : ∀ e ∈ b.Items, 1 ≤ e.2 ∧ e.2 ≤ k) :
    ∀ e ∈ (op.apply fl userName b).Items, 1 ≤ e.2 ∧ e.2 ≤ k + 1 := by
  intro e he
  cases op with
  | add details =>
    simp only [BasketOp.apply] at he
    rw [BasketAdd_Items_eq] at he
    have hm : ∀ e ∈ (if b.RestLink = details.RestLink then b.Items else []),
        1 ≤ e.2 ∧ e.2 ≤ k := by
      intro e he
      by_cases hl : b.RestLink = details.RestLink
      · rw [if_pos hl] at he
        exact h e he
      · rw [if_neg hl] at he
        simp at he
    rcases GoMap.mem_store _ _ _ e he with h1 | h1
    · rw [h1]
      show 1 ≤ wrapInt64 (GoMap.index _ (itemOf details) + 1)
        ∧ wrapInt64 (GoMap.index _ (itemOf details) + 1) ≤ k + 1
      cases hq : GoMap.lookup (if b.RestLink = details.RestLink then b.Items else [])
          (itemOf details) with
      | none =>
        rw [index_of_lookup_none _ _ hq, wrapInt64_one]
        omega
      | some q =>
        rw [index_of_lookup_some _ _ _ hq]
        have := hm _ (GoMap.mem_of_lookup _ _ _ hq)
        simp only at this
        rw [wrapInt64_eq _ (by omega) (by omega)]
        omega
    · have := hm e h1
      omega
  | remove details =>
    simp only [BasketOp.apply] at he
    rw [BasketRemove_Items_eq] at he
    by_cases hgt : GoMap.index b.Items (itemOf details) > 1
    · rw [if_pos hgt] at he
      rcases GoMap.mem_store _ _ _ e he with h1 | h1
      · rw [h1]
        show 1 ≤ GoMap.index b.Items (itemOf details) - 1
          ∧ GoMap.index b.Items (itemOf details) - 1 ≤ k + 1
        cases hq : GoMap.lookup b.Items (itemOf details) with
        | none =>
          rw [index_of_lookup_none _ _ hq] at hgt
          omega
        | some q =>
          rw [index_of_lookup_some _ _ _ hq] at hgt ⊢
          have := h _ (GoMap.mem_of_lookup _ _ _ hq)
          simp only at this
          omega
      · have := h e h1
        omega
    · rw [if_neg hgt] at he
      have := h e (GoMap.mem_delete _ _ e he)
      omega
  | empty =>
    simp only [BasketOp.apply] at he
    rw [BasketEmpty_Items_eq] at he
    simp at he

theorem runOps_quantities (fl : Float64Ops F) (userName : String) (ops : List BasketOp) :
    ∀ (b : Basket) (k : Int), 0 ≤ k → k + ops.length < 2 ^ 63 →
      (∀ e ∈ b.Items, 1 ≤ e.2 ∧ e.2 ≤ k) →
      ∀ e ∈ (runOps fl userName b ops).Items, 1 ≤ e.2 ∧ e.2 ≤ k + ops.length := by
  induction ops with
  | nil =>
    intro b k _ _ h e he
    have := h e he
    simpa [runOps] using this
  | cons op ops ih =>
    intro b k hk hmax h e he
    simp only [List.length_cons, Nat.cast_add, Nat.cast_one] at hmax ⊢
    have h1 := ih (op.apply fl userName b) (k + 1) (by omega) (by omega)
      (BasketOp.apply_quantities fl userName b op k hk (by omega) h) e he
    omega

/-- The number of requests bounds every quantity: in a basket reached from a
fresh one by fewer than `2^63` requests, every quantity lies between 1 and the
number of requests, so no increment has wrapped. -/
theorem runOps_quantities_bounded (fl : Float64Ops F) (userName restLink : String)
    (ops : List BasketOp) (hlen : (ops.length : Int) < 2 ^ 63) :
    ∀ e ∈ (runOps fl userName (newBasket restLink userName) ops).Items,
      1 ≤ e.2 ∧ e.2 ≤ (ops.length : Int) := by
  intro e he
  have := runOps_quantities fl userName ops (newBasket restLink userName) 0 (le_refl 0)
    (by omega) (by intro e he; simp [newBasket] at he) e he
  omega

theorem runOps_append (fl : Float64Ops F) (userName : String) (b : Basket)
    (ops : List BasketOp) (op : BasketOp) :
    runOps fl userName b (ops ++ [op]) = op.apply fl userName (runOps fl userName b ops) := by
  simp [runOps, List.foldl_append]

/-- The basket after `n + 1` requests for a burger, while the quantity fits. -/
theorem runOps_replicate_add (fl : Float64Ops F) (userName : String) :
    ∀ n : Nat, (n : Int) + 1 < 2 ^ 63 →
      (runOps fl userName (newBasket "r" userName)
          (List.replicate (n + 1) (BasketOp.add burger))).RestLink = "r" ∧
      (runOps fl userName (newBasket "r" userName)
          (List.replicate (n + 1) (BasketOp.add burger))).Items
        = [(itemOf burger, (n : Int) + 1)] := by
  intro n
  induction n with
  | zero =>
    intro _
    exact ⟨rfl, rfl⟩
  | succ n ih =>
    intro hn
    have hn' : (n : Int) + 1 < 2 ^ 63 := by
      have : ((n + 1 : Nat) : Int) = (n : Int) + 1 := by push_cast; rfl
      omega
    obtain ⟨hlink, hitems⟩ := ih hn'
    rw [List.replicate_succ', runOps_append]
    refine ⟨BasketAdd_RestLink_eq fl userName _ burger, ?_⟩
    show (BasketAdd fl userName (some _) burger).Items = _
    rw [BasketAdd_Items_eq, if_pos (by rw [hlink]; rfl), hitems]
    have hidx : GoMap.index [(itemOf burger, (n : Int) + 1)] (itemOf burger) = (n : Int) + 1 := by
      simp [GoMap.index, GoMap.lookup]
    rw [hidx, wrapInt64_eq _ (by omega) (by push_cast at hn; omega)]
    simp [GoMap.store]

/-- The request that wraps: after `2^63` requests for a burger the basket holds
the burger with quantity `-2^63`. -/
theorem runOps_replicate_add_wraps (fl : Float64Ops F) (userName : String) (N : Nat)
    (hN : (N : Int) = 2 ^ 63) :
    (runOps fl userName (newBasket "r" userName)
        (List.replicate N (BasketOp.add burger))).Items
      = [(itemOf burger, -2 ^ 63)] := by
  obtain ⟨m, rfl⟩ : ∃ m, N = m + 1 + 1 := ⟨N - 2, by omega⟩
  have hm : (m : Int) + 1 < 2 ^ 63 := by push_cast at hN; omega
  obtain ⟨hlink, hitems⟩ := runOps_replicate_add fl userName m hm
  rw [List.replicate_succ', runOps_append]
  show (BasketAdd fl userName (some _) burger).Items = _
  rw [BasketAdd_Items_eq, if_pos (by rw [hlink]; rfl), hitems]
  have hidx : GoMap.index [(itemOf burger, (m : Int) + 1)] (itemOf burger) = (m : Int) + 1 := by
    simp [GoMap.index, GoMap.lookup]
  have hw : wrapInt64 ((m : Int) + 1 + 1) = -2 ^ 63 := by
    unfold wrapInt64
    push_cast at hN
    omega
  rw [hidx, hw]
  simp [GoMap.store]

/-- A request keeps the keys of the items map distinct. -/
theorem BasketOp.apply_WF (fl : Float64Ops F) (userName : String) (b : Basket)
    (op : BasketOp) (h : GoMap.WF b.Items) : GoMap.WF (op.apply fl userName b).Items := by
  cases op with
  | add details =>
    simp only [BasketOp.apply]
    rw [BasketAdd_Items_eq]
    apply GoMap.WF_store
    by_cases hl : b.RestLink = details.RestLink
    · rw [if_pos hl]; exact h
    · rw [if_neg hl]; exact List.nodup_nil
  | remove details =>
    simp only [BasketOp.apply]
    rw [BasketRemove_Items_eq]
    by_cases hgt : GoMap.index b.Items (itemOf details) > 1
    · rw [if_pos hgt]; exact GoMap.WF_store _ _ _ h
    · rw [if_neg hgt]; exact GoMap.WF_delete _ _ h
  | empty =>
    simp only [BasketOp.apply]
    rw [BasketEmpty_Items_eq]
    exact List.nodup_nil

theorem runOps_WF (fl : Float64Ops F) (userName : String) (ops : List BasketOp) :
    ∀ b : Basket, GoMap.WF b.Items → GoMap.WF (runOps fl userName b ops).Items := by
  induction ops with
  | nil => intro b h; exact h
  | cons op ops ih =>
    intro b h
    exact ih (op.apply fl userName b) (BasketOp.apply_WF fl userName b op h)

/-- With no basket in the session `BasketAdd` adds to the basket it creates. -/
theorem BasketAdd_none (fl : Float64Ops F) (userName : String) (details : Item) :
    BasketAdd fl userName none details
      = BasketAdd fl userName (some (newBasket details.RestLink userName)) details := rfl

end BasketFacts

section BasketClaims

variable {F : Type}

/-- C6, as stated, fails: at a basket that holds the burger at the largest `int`,
`2^63 - 1`, `BasketAdd` of a burger from the same restaurant leaves the quantity
`-2^63` (the increment wraps), not `m(x) + 1 = 2^63`. -/
theorem BasketAdd_wraps_counterexample :
    GoMap.index maxBasket.Items (itemOf burger) = 2 ^ 63 - 1 ∧
    GoMap.lookup (BasketAdd Float64Ops.symbolic "alice" (some maxBasket) burger).Items
        (itemOf burger) = some (-2 ^ 63) ∧
    GoMap.lookup (BasketAdd Float64Ops.symbolic "alice" (some maxBasket) burger).Items
        (itemOf burger) ≠ some (GoMap.index maxBasket.Items (itemOf burger) + 1) := by
  decide

/-- C6, amended. After `BasketAdd` of an item `x` posted with restaurant link `r`
to an existing basket `b`, the basket's restaurant link is `r` and its items map
is `m[x := wrap(m(x) + 1)]`, where `m` is the items map of `b` if the link of `b`
is `r` and the empty map otherwise (an absent `x` reads as 0) and `wrap` is the
wrap-around of a 64-bit `int`.  Whenever `m(x)` is an `int` below the largest,
`2^63 - 1`, the items map is `m[x := m(x) + 1]`.  When the links differ the
basket holds exactly `x` with quantity 1; when they agree every entry other than
`x` is unchanged. -/
theorem BasketAdd_items (fl : Float64Ops F) (userName : String) (b : Basket)
    (details : Item) :
    (BasketAdd fl userName (some b) details).RestLink = details.RestLink ∧
    (∀ y : Item, GoMap.lookup (BasketAdd fl userName (some b) details).Items y =
      if y = itemOf details then
        some (wrapInt64 (GoMap.index (if b.RestLink = details.RestLink then b.Items else [])
          (itemOf details) + 1))
      else GoMap.lookup (if b.RestLink = details.RestLink then b.Items else []) y) ∧
    (-2 ^ 63 ≤ GoMap.index (if b.RestLink = details.RestLink then b.Items else [])
        (itemOf details) →
      GoMap.index (if b.RestLink = details.RestLink then b.Items else [])
        (itemOf details) < 2 ^ 63 - 1 →
      ∀ y : Item, GoMap.lookup (BasketAdd fl userName (some b) details).Items y =
        if y = itemOf details then
          some (GoMap.index (if b.RestLink = details.RestLink then b.Items else [])
            (itemOf details) + 1)
        else GoMap.lookup (if b.RestLink = details.RestLink then b.Items else []) y) ∧
    (b.RestLink ≠ details.RestLink →
      (BasketAdd fl userName (some b) details).Items = [(itemOf details, 1)]) ∧
    (b.RestLink = details.RestLink → ∀ y : Item, y ≠ itemOf details →
      GoMap.lookup (BasketAdd fl userName (some b) details).Items y
        = GoMap.lookup b.Items y) := by
  refine ⟨BasketAdd_RestLink_eq fl userName b details, ?_, ?_, ?_, ?_⟩
  · intro y
    rw [BasketAdd_Items_eq, GoMap.lookup_store]
  · intro hlo hhi y
    rw [BasketAdd_Items_eq, GoMap.lookup_store, wrapInt64_eq _ (by omega) (by omega)]
  · intro hl
    rw [BasketAdd_Items_eq, if_neg hl]
    rfl
  · intro hl y hy
    rw [BasketAdd_Items_eq, GoMap.lookup_store, if_neg hy, if_pos hl]

/-- C6, amended, at the basket of alice: a pizza from another restaurant replaces
the whole content, and a third burger leaves the fries alone. -/
theorem BasketAdd_items_witness :
    (BasketAdd Float64Ops.symbolic "alice" (some aliceBasket) pizza).Items
        = [(itemOf pizza, 1)] ∧
    GoMap.lookup (BasketAdd Float64Ops.symbolic "alice" (some aliceBasket) burger).Items
        (itemOf burger) = some 3 ∧
    GoMap.lookup (BasketAdd Float64Ops.symbolic "alice" (some aliceBasket) burger).Items
        (itemOf fries) = GoMap.lookup aliceBasket.Items (itemOf fries) :=
  ⟨(BasketAdd_items Float64Ops.symbolic "alice" aliceBasket pizza).2.2.2.1 (by decide),
   ((BasketAdd_items Float64Ops.symbolic "alice" aliceBasket burger).2.2.1
      (by decide) (by decide) (itemOf burger)).trans (by decide),
   (BasketAdd_items Float64Ops.symbolic "alice" aliceBasket burger).2.2.2.2 (by decide)
      (itemOf fries) (by decide)⟩

/-- C7. After `BasketRemove` of an item `x`: a quantity greater than 1 is
decreased by exactly 1; a quantity of exactly 1 deletes the entry; an `x` that is
not in the basket leaves the items map as it was; in each case every entry other
than `x` keeps its quantity. -/
theorem BasketRemove_items (fl : Float64Ops F) (b : Basket) (details : Item) :
    (∀ q : Int, GoMap.lookup b.Items (itemOf details) = some q → 1 < q →
      GoMap.lookup (BasketRemove fl b details).Items (itemOf details) = some (q - 1)) ∧
    (GoMap.lookup b.Items (itemOf details) = some 1 →
      GoMap.lookup (BasketRemove fl b details).Items (itemOf details) = none) ∧
    (GoMap.lookup b.Items (itemOf details) = none →
      (BasketRemove fl b details).Items = b.Items) ∧
    (∀ y : Item, y ≠ itemOf details →
      GoMap.lookup (BasketRemove fl b details).Items y = GoMap.lookup b.Items y) := by
  refine ⟨?_, ?_, ?_, ?_⟩
  · intro q hq hgt
    have hi : GoMap.index b.Items (itemOf details) = q := index_of_lookup_some _ _ _ hq
    rw [BasketRemove_Items_eq, hi, if_pos hgt, GoMap.lookup_store, if_pos rfl]
  · intro hq
    have hi : GoMap.index b.Items (itemOf details) = 1 := index_of_lookup_some _ _ _ hq
    rw [BasketRemove_Items_eq, hi, if_neg (by decide), GoMap.lookup_delete, if_pos rfl]
  · intro hq
    have hi : GoMap.index b.Items (itemOf details) = 0 := index_of_lookup_none _ _ hq
    rw [BasketRemove_Items_eq, hi, if_neg (by decide), GoMap.delete_eq_self _ _ hq]
  · intro y hy
    rw [BasketRemove_Items_eq]
    by_cases hgt : GoMap.index b.Items (itemOf details) > 1
    · rw [if_pos hgt, GoMap.lookup_store, if_neg hy]
    · rw [if_neg hgt, GoMap.lookup_delete, if_neg hy]

/-- C7 at the basket of alice: one of two burgers goes, the only fries entry is
deleted, and removing a pizza that is not there changes nothing. -/
theorem BasketRemove_items_witness :
    GoMap.lookup (BasketRemove Float64Ops.symbolic aliceBasket burger).Items
        (itemOf burger) = some (2 - 1) ∧
    GoMap.lookup (BasketRemove Float64Ops.symbolic aliceBasket fries).Items
        (itemOf fries) = none ∧
    (BasketRemove Float64Ops.symbolic aliceBasket pizza).Items = aliceBasket.Items ∧
    GoMap.lookup (BasketRemove Float64Ops.symbolic aliceBasket fries).Items
        (itemOf burger) = GoMap.lookup aliceBasket.Items (itemOf burger) :=
  ⟨(BasketRemove_items Float64Ops.symbolic aliceBasket burger).1 2 (by decide) (by decide),
   (BasketRemove_items Float64Ops.symbolic aliceBasket fries).2.1 (by decide),
   (BasketRemove_items Float64Ops.symbolic aliceBasket pizza).2.2.1 (by decide),
   (BasketRemove_items Float64Ops.symbolic aliceBasket fries).2.2.2 (itemOf burger)
      (by decide)⟩

/-- C8, as stated, fails: `2^63` requests for a burger, from a freshly created
basket, leave the burger with quantity `-2^63`: the increment of the last request
wraps, and the entry is kept below 1. -/
theorem basket_quantities_wrap_counterexample :
    (runOps Float64Ops.symbolic "alice" (newBasket "r" "alice")
        (List.replicate (2 ^ 63) (BasketOp.add burger))).Items
      = [(itemOf burger, -2 ^ 63)] ∧
    ¬ ∀ e ∈ (runOps Float64Ops.symbolic "alice" (newBasket "r" "alice")
        (List.replicate (2 ^ 63) (BasketOp.add burger))).Items, (1 : Int) ≤ e.2 := by
  have h := runOps_replicate_add_wraps Float64Ops.symbolic "alice" (2 ^ 63) (by norm_num)
  refine ⟨h, ?_⟩
  rw [h]
  intro hall
  have := hall (itemOf burger, -2 ^ 63) (List.mem_singleton.mpr rfl)
  revert this
  decide

/-- C8, amended. In every basket reached from a freshly created basket by a
sequence of fewer than `2^63` requests `BasketAdd`, `BasketRemove` and
`BasketEmpty`, every entry of the items map has a quantity of at least 1 (an
entry is never kept at zero: a removal at quantity 1 deletes it). -/
theorem basket_quantities_positive (fl : Float64Ops F) (userName restLink : String)
    (ops : List BasketOp) (hlen : ops.length < 2 ^ 63) (e : Item × Int)
    (he : e ∈ (runOps fl userName (newBasket restLink userName) ops).Items) :
    1 ≤ e.2 ∧
    ∀ details : Item,
      GoMap.index (runOps fl userName (newBasket restLink userName) ops).Items
          (itemOf details) ≤ 1 →
      GoMap.lookup (runOps fl userName (newBasket restLink userName)
          (ops ++ [BasketOp.remove details])).Items (itemOf details) = none := by
  have hlen' : (ops.length : Int) < 2 ^ 63 := by exact_mod_cast hlen
  refine ⟨(runOps_quantities_bounded fl userName restLink ops hlen' e he).1, ?_⟩
  intro details hle
  rw [runOps_append]
  show GoMap.lookup (BasketRemove fl _ details).Items (itemOf details) = none
  rw [BasketRemove_Items_eq, if_neg (by omega), GoMap.lookup_delete, if_pos rfl]

/-- C8, amended, on a run that adds two burgers and fries, removes one burger,
empties the basket and adds fries again. -/
theorem basket_quantities_positive_witness :
    (1 : Int) ≤ ((itemOf fries, (1 : Int)) : Item × Int).2 ∧
    ∀ details : Item,
      GoMap.index (runOps Float64Ops.symbolic "alice" (newBasket "r" "alice")
          [.add burger, .add burger, .add fries, .remove burger, .empty, .add fries]).Items
          (itemOf details) ≤ 1 →
      GoMap.lookup (runOps Float64Ops.symbolic "alice" (newBasket "r" "alice")
          ([.add burger, .add burger, .add fries, .remove burger, .empty, .add fries]
            ++ [BasketOp.remove details])).Items (itemOf details) = none :=
  basket_quantities_positive Float64Ops.symbolic "alice" "r"
    [.add burger, .add burger, .add fries, .remove burger, .empty, .add fries]
    (by decide) (itemOf fries, 1) (by decide)

/-- C10, as stated, fails: the basket that holds the burger at the largest `int`
has all quantities at least 1 and is of restaurant `r`; `BasketAdd` of a burger
wraps the quantity to `-2^63` and `BasketRemove` then deletes the entry instead
of restoring it. -/
theorem BasketAdd_then_BasketRemove_counterexample :
    (∀ e ∈ maxBasket.Items, (1 : Int) ≤ e.2) ∧
    burger.RestLink = maxBasket.RestLink ∧
    GoMap.lookup maxBasket.Items (itemOf burger) = some (2 ^ 63 - 1) ∧
    GoMap.lookup (BasketRemove Float64Ops.symbolic
        (BasketAdd Float64Ops.symbolic "alice" (some maxBasket) burger) burger).Items
        (itemOf burger) = none ∧
    (BasketRemove Float64Ops.symbolic
        (BasketAdd Float64Ops.symbolic "alice" (some maxBasket) burger) burger).Items
      ≠ maxBasket.Items := by
  decide

/-- C10, amended. For a basket whose quantities are all at least 1, and an item
posted from the basket's own restaurant whose quantity in the basket is below
the largest `int`, `2^63 - 1`, `BasketAdd` followed by `BasketRemove` of the same
item leaves the items map as it was before the add. -/
theorem BasketAdd_then_BasketRemove (fl : Float64Ops F) (userName : String) (b : Basket)
    (details : Item) (hq : ∀ e ∈ b.Items, 1 ≤ e.2) (hl : details.RestLink = b.RestLink)
    (hmax : GoMap.index b.Items (itemOf details) < 2 ^ 63 - 1) :
    (BasketRemove fl (BasketAdd fl userName (some b) details) details).Items = b.Items ∧
    ∀ y : Item,
      GoMap.lookup (BasketRemove fl (BasketAdd fl userName (some b) details) details).Items y
        = GoMap.lookup b.Items y := by
  have hlo : 0 ≤ GoMap.index b.Items (itemOf details) := by
    cases hlk : GoMap.lookup b.Items (itemOf details) with
    | none => rw [index_of_lookup_none _ _ hlk]
    | some q =>
      have := hq _ (GoMap.mem_of_lookup _ _ _ hlk)
      rw [index_of_lookup_some _ _ _ hlk]
      simp only at this
      omega
  have hitems : (BasketRemove fl (BasketAdd fl userName (some b) details) details).Items
      = b.Items := by
    rw [BasketRemove_Items_eq, BasketAdd_Items_eq, if_pos hl.symm,
      wrapInt64_eq _ (by omega) (by omega)]
    have hidx : GoMap.index (GoMap.store b.Items (itemOf details)
        (GoMap.index b.Items (itemOf details) + 1)) (itemOf details)
        = GoMap.index b.Items (itemOf details) + 1 := by
      simp [GoMap.index, GoMap.lookup_store]
    rw [hidx]
    cases hlk : GoMap.lookup b.Items (itemOf details) with
    | none =>
      rw [index_of_lookup_none _ _ hlk, if_neg (by decide),
        GoMap.delete_store_of_absent _ _ _ hlk]
    | some q =>
      have hq1 : 1 ≤ q := hq _ (GoMap.mem_of_lookup _ _ _ hlk)
      rw [index_of_lookup_some _ _ _ hlk, if_pos (by omega), GoMap.store_store]
      have : q + 1 - 1 = q := by omega
      rw [this, GoMap.store_eq_self _ _ _ hlk]
  exact ⟨hitems, fun y => by rw [hitems]⟩

/-- C10, amended, at the basket of alice, for one more burger. -/
theorem BasketAdd_then_BasketRemove_witness :
    (BasketRemove Float64Ops.symbolic
        (BasketAdd Float64Ops.symbolic "alice" (some aliceBasket) burger) burger).Items
      = aliceBasket.Items ∧
    ∀ y : Item,
      GoMap.lookup (BasketRemove Float64Ops.symbolic
          (BasketAdd Float64Ops.symbolic "alice" (some aliceBasket) burger) burger).Items y
        = GoMap.lookup aliceBasket.Items y :=
  BasketAdd_then_BasketRemove Float64Ops.symbolic "alice" aliceBasket burger
    (by decide) (by decide) (by decide)

end BasketClaims

/-! ## Order submission -/

theorem marshalOrders_fresh (data : List Order) : ∀ (heap extra : Heap),
    marshalOrders (heap ++ data ++ extra)
      ((List.range data.length).map (fun k => some (heap.length + k))) = data := by
  induction data with
  | nil => intro heap extra; simp [marshalOrders]
  | cons x rest ih =>
    intro heap extra
    have h1 := ih (heap ++ [x]) extra
    have hm : List.map (fun k => some (heap.length + k))
          (List.map Nat.succ (List.range rest.length))
        = List.map (fun k => some ((heap ++ [x]).length + k)) (List.range rest.length) := by
      rw [List.map_map]
      apply List.map_congr_left
      intro a _
      simp [Nat.succ_eq_add_one]
      omega
    rw [List.length_cons, List.range_succ_eq_map, List.map_cons, hm]
    have hh : heap ++ x :: rest ++ extra = heap ++ [x] ++ rest ++ extra := by simp
    rw [hh]
    unfold marshalOrders at h1 ⊢
    rw [List.filterMap_cons, h1]
    have hx : (heap ++ [x] ++ rest ++ extra)[heap.length + 0]? = some x := by
      rw [List.append_assoc, List.append_assoc, List.getElem?_append_right (by omega)]
      simp
    simp only [Option.some_bind, hx]

theorem BasketSendOrder_record (fs : Files) (b : Basket) :
    (BasketSendOrder fs b).1 (ordersFileName b.RestLink)
      = fs (ordersFileName b.RestLink) ++ [orderOf b] := by
  have h := marshalOrders_fresh (fs (ordersFileName b.RestLink)) [orderOf b] []
  simp only [List.append_nil] at h
  simp only [BasketSendOrder, OrdersGet, unmarshalOrders, writeFile, if_true]
  unfold marshalOrders at h ⊢
  rw [List.filterMap_append, h]
  simp

theorem foldl_store_absent (name : String) (l : GoMap Item Int) :
    ∀ acc : GoMap String Int, (∀ e ∈ l, e.1.ItemName ≠ name) →
      GoMap.lookup (l.foldl (fun info e => GoMap.store info e.1.ItemName e.2) acc) name
        = GoMap.lookup acc name := by
  induction l with
  | nil => intro acc _; rfl
  | cons e rest ih =>
    intro acc h
    rw [List.foldl_cons, ih _ (fun e' he' => h e' (List.mem_cons_of_mem _ he')),
      GoMap.lookup_store, if_neg (fun hn => h e (List.mem_cons_self _ _) hn.symm)]

theorem foldl_store_source (name : String) (q : Int) (l : GoMap Item Int) :
    ∀ acc : GoMap String Int,
      GoMap.lookup (l.foldl (fun info e => GoMap.store info e.1.ItemName e.2) acc) name
        = some q →
      (∃ e ∈ l, e.1.ItemName = name ∧ e.2 = q) ∨ GoMap.lookup acc name = some q := by
  induction l with
  | nil => intro acc h; exact Or.inr h
  | cons e rest ih =>
    intro acc h
    rw [List.foldl_cons] at h
    rcases ih _ h with ⟨e', he', hn, hv⟩ | h2
    · exact Or.inl ⟨e', List.mem_cons_of_mem _ he', hn, hv⟩
    · rw [GoMap.lookup_store] at h2
      by_cases hn : name = e.1.ItemName
      · rw [if_pos hn] at h2
        exact Or.inl ⟨e, List.mem_cons_self _ _, hn.symm, Option.some.inj h2⟩
      · rw [if_neg hn] at h2
        exact Or.inr h2

theorem foldl_store_agree (name : String) (q : Int) (l : GoMap Item Int) :
    ∀ acc : GoMap String Int, (∃ e ∈ l, e.1.ItemName = name) →
      (∀ e ∈ l, e.1.ItemName = name → e.2 = q) →
      GoMap.lookup (l.foldl (fun info e => GoMap.store info e.1.ItemName e.2) acc) name
        = some q := by
  induction l with
  | nil => intro acc h; obtain ⟨e, he, _⟩ := h; simp at he
  | cons e rest ih =>
    intro acc hex hall
    rw [List.foldl_cons]
    by_cases hr : ∃ e' ∈ rest, e'.1.ItemName = name
    · exact ih _ hr (fun e' he' => hall e' (List.mem_cons_of_mem _ he'))
    · have hr' : ∀ e' ∈ rest, e'.1.ItemName ≠ name := fun e' he' hn => hr ⟨e', he', hn⟩
      obtain ⟨e0, he0, hn0⟩ := hex
      have he : e.1.ItemName = name := by
        rcases List.mem_cons.mp he0 with h | h
        · rw [← h]; exact hn0
        · exact absurd hn0 (hr' e0 h)
      rw [foldl_store_absent name rest _ hr', GoMap.lookup_store, if_pos he.symm,
        hall e (List.mem_cons_self _ _) he]

theorem foldl_store_present (name : String) (l : GoMap Item Int) :
    ∀ acc : GoMap String Int, (∃ e ∈ l, e.1.ItemName = name) →
      (GoMap.lookup (l.foldl (fun info e => GoMap.store info e.1.ItemName e.2) acc)
        name).isSome = true := by
  induction l with
  | nil => intro acc h; obtain ⟨e, he, _⟩ := h; simp at he
  | cons e rest ih =>
    intro acc hex
    rw [List.foldl_cons]
    by_cases hr : ∃ e' ∈ rest, e'.1.ItemName = name
    · exact ih _ hr
    · have hr' : ∀ e' ∈ rest, e'.1.ItemName ≠ name := fun e' he' hn => hr ⟨e', he', hn⟩
      obtain ⟨e0, he0, hn0⟩ := hex
      have he : e.1.ItemName = name := by
        rcases List.mem_cons.mp he0 with h | h
        · rw [← h]; exact hn0
        · exact absurd hn0 (hr' e0 h)
      rw [foldl_store_absent name rest _ hr', GoMap.lookup_store, if_pos he.symm]
      rfl

/-- C5, as stated, fails: with two items of one name in the basket the order
holds one entry under that name, so it cannot equal both quantities, in whichever
order the loop visits the two entries. -/
theorem orderOf_same_name_counterexample :
    GoMap.WF sameNameBasket.Items ∧
    ¬ (∀ e ∈ sameNameBasket.Items,
        GoMap.lookup (orderOf sameNameBasket).ItemsInfo e.1.ItemName = some e.2) ∧
    ¬ (∀ e ∈ sameNameBasket.Items.reverse,
        GoMap.lookup (orderOf { sameNameBasket with
          Items := sameNameBasket.Items.reverse }).ItemsInfo e.1.ItemName = some e.2) := by
  decide

/-- C5, amended. The order `BasketSendOrder` appends to the pending record has the
basket's user name as buyer, the basket's total, `completed = false`, and an
`itemsInfo` whose keys are exactly the names of the basket's items; every entry
is the quantity of an item of that name, and for an item whose name no other
item of the basket bears the entry under its name is that item's quantity. -/
theorem BasketSendOrder_order (fs : Files) (b : Basket) (hwf : GoMap.WF b.Items) :
    (BasketSendOrder fs b).1 (ordersFileName b.RestLink)
      = fs (ordersFileName b.RestLink) ++ [orderOf b] ∧
    (orderOf b).Buyer = b.UserName ∧
    (orderOf b).TotalAmount = b.TotalAmount ∧
    (orderOf b).Completed = false ∧
    (∀ name : String, (GoMap.lookup (orderOf b).ItemsInfo name).isSome = true ↔
      ∃ e ∈ b.Items, e.1.ItemName = name) ∧
    (∀ (name : String) (q : Int), GoMap.lookup (orderOf b).ItemsInfo name = some q →
      ∃ e ∈ b.Items, e.1.ItemName = name ∧ e.2 = q) ∧
    (∀ e ∈ b.Items, (∀ e' ∈ b.Items, e'.1.ItemName = e.1.ItemName → e'.1 = e.1) →
      GoMap.lookup (orderOf b).ItemsInfo e.1.ItemName = some e.2) := by
  have hsrc : ∀ (name : String) (q : Int),
      GoMap.lookup (orderOf b).ItemsInfo name = some q →
      ∃ e ∈ b.Items, e.1.ItemName = name ∧ e.2 = q := by
    intro name q h
    rcases foldl_store_source name q b.Items [] h with h1 | h1
    · exact h1
    · simp [GoMap.lookup] at h1
  refine ⟨BasketSendOrder_record fs b, rfl, rfl, rfl, ?_, hsrc, ?_⟩
  · intro name
    constructor
    · intro h
      obtain ⟨q, hq⟩ := Option.isSome_iff_exists.mp h
      obtain ⟨e, he, hn, _⟩ := hsrc name q hq
      exact ⟨e, he, hn⟩
    · intro h
      exact foldl_store_present name b.Items [] h
  · intro e he huniq
    apply foldl_store_agree e.1.ItemName e.2 b.Items [] ⟨e, he, rfl⟩
    intro e' he' hn
    have hk : e'.1 = e.1 := huniq e' he' hn
    have h1 : GoMap.lookup b.Items e'.1 = some e'.2 :=
      GoMap.lookup_of_mem b.Items hwf e'.1 e'.2 he'
    have h2 : GoMap.lookup b.Items e.1 = some e.2 :=
      GoMap.lookup_of_mem b.Items hwf e.1 e.2 he
    rw [hk, h2] at h1
    exact (Option.some.inj h1).symm

/-- C5, amended, at the basket of alice: two burgers and one portion of fries. -/
theorem BasketSendOrder_order_witness :
    (BasketSendOrder (storeOf [orderA]) aliceBasket).1 (ordersFileName aliceBasket.RestLink)
      = storeOf [orderA] (ordersFileName aliceBasket.RestLink) ++ [orderOf aliceBasket] ∧
    (orderOf aliceBasket).Buyer = "alice" ∧
    (orderOf aliceBasket).TotalAmount = "12.50" ∧
    (orderOf aliceBasket).Completed = false ∧
    GoMap.lookup (orderOf aliceBasket).ItemsInfo "Burger" = some 2 ∧
    GoMap.lookup (orderOf aliceBasket).ItemsInfo "Fries" = some 1 :=
  have h := BasketSendOrder_order (storeOf [orderA]) aliceBasket (by decide)
  ⟨h.1, h.2.1, h.2.2.1, h.2.2.2.1,
   h.2.2.2.2.2.2 (itemOf burger, 2) (by decide) (by decide),
   h.2.2.2.2.2.2 (itemOf fries, 1) (by decide) (by decide)⟩

/-! ## Order completion -/

theorem fileNames_ne (restLink : String) :
    ordersFileName restLink ≠ completedFileName restLink := by
  intro h
  have := congrArg String.length h
  simp [ordersFileName, completedFileName, String.length_append] at this
  revert this
  decide

theorem goCopy_shift {α : Type} (l : List α) (i : Nat) (hi : i < l.length) :
    l.take i ++ goCopy (l.drop i) (l.drop (i + 1))
      = l.eraseIdx i ++ l.drop (l.length - 1) := by
  unfold goCopy
  rw [List.eraseIdx_eq_take_drop_succ]
  have h1 : (l.drop (i + 1)).take (l.drop i).length = l.drop (i + 1) := by
    apply List.take_of_length_le
    simp
    omega
  have h2 : (l.drop i).drop (l.drop (i + 1)).length = l.drop (l.length - 1) := by
    rw [List.drop_drop]
    congr 1
    simp
    omega
  rw [h1, h2, List.append_assoc]

theorem filterMap_eraseIdx {α β : Type} (f : α → Option β) (l : List α) :
    ∀ i : Nat, (∀ x ∈ l, (f x).isSome = true) →
      (l.eraseIdx i).filterMap f = (l.filterMap f).eraseIdx i := by
  induction l with
  | nil => intro i _; simp
  | cons x rest ih =>
    intro i h
    obtain ⟨y, hy⟩ := Option.isSome_iff_exists.mp (h x (List.mem_cons_self _ _))
    cases i with
    | zero => simp [List.filterMap_cons, hy]
    | succ j =>
      have := ih j (fun x hx => h x (List.mem_cons_of_mem _ hx))
      simp [List.filterMap_cons, hy, this]

theorem unmarshalOrders_nil (data : List Order) :
    unmarshalOrders [] data = (data, (List.range data.length).map some) := by
  simp [unmarshalOrders]

theorem marshalOrders_range (heap : Heap) :
    marshalOrders heap ((List.range heap.length).map some) = heap := by
  have h := marshalOrders_fresh heap [] []
  simpa using h

theorem setCompleted_last (front : List Order) (last : Order) :
    setCompleted (front ++ [last]) front.length
      = front ++ [{ last with Completed := true }] := by
  simp [setCompleted]

/-- What `OrderComplete` does at an index inside the pending record `front ++ [last]`:
the order moved to the completed record is always `last`, flagged completed, and
the pending record written is `front ++ [last]` with `last` flagged and the
element at `index` deleted.  At the last index this is the move of the indexed
order; at any other index the indexed order is dropped and `last` stays in the
pending record, flagged. -/
theorem OrderComplete_in_range (fs : Files) (restLink : String) (i : Nat)
    (front : List Order) (last : Order)
    (hdata : fs (ordersFileName restLink) = front ++ [last]) (hi : i ≤ front.length) :
    OrderComplete fs restLink (i : Int)
      = (writeFile
          (writeFile fs (ordersFileName restLink)
            ((front ++ [{ last with Completed := true }]).eraseIdx i))
          (completedFileName restLink)
          (fs (completedFileName restLink) ++ [{ last with Completed := true }]),
        Outcome.redirect "/orders") := by
  have hne : completedFileName restLink ≠ ordersFileName restLink :=
    fun h => fileNames_ne restLink h.symm
  have hlen : (front ++ [last]).length = front.length + 1 := by simp
  have hptr : ((List.range (front.length + 1)).map some).length = front.length + 1 := by simp
  have hshift := goCopy_shift ((List.range (front.length + 1)).map (some : Nat → Option Nat)) i
    (by rw [hptr]; omega)
  rw [hptr] at hshift
  simp only [OrderComplete, OrdersGet, hdata, unmarshalOrders_nil, hlen, hptr]
  have c1 : ¬ ((i : Int) < 0 ∨ ((front.length + 1 : Nat) : Int) < (i : Int)) := by omega
  have c2 : ¬ (((front.length + 1 : Nat) : Int) < (i : Int) + 1) := by omega
  rw [if_neg c1, if_neg c2, Int.toNat_ofNat, hshift]
  have hdrop : List.drop (front.length + 1 - 1)
      (List.map (some : Nat → Option Nat) (List.range (front.length + 1)))
      = [some front.length] := by
    rw [List.range_succ, List.map_append, Nat.add_sub_cancel,
      List.drop_append_of_le_length (by simp)]
    simp
  have hX : ((List.map (some : Nat → Option Nat)
      (List.range (front.length + 1))).eraseIdx i).length = front.length := by
    rw [List.length_eraseIdx_of_lt (by rw [hptr]; omega), hptr, Nat.add_sub_cancel]
  have hget : ((List.map (some : Nat → Option Nat) (List.range (front.length + 1))).eraseIdx i
      ++ [some front.length])[front.length + 1 - 1]? = some (some front.length) := by
    rw [Nat.add_sub_cancel, List.getElem?_append_right (by omega), hX]
    simp
  have htake : List.take (front.length + 1 - 1)
      (((List.map (some : Nat → Option Nat) (List.range (front.length + 1))).eraseIdx i
        ++ [some front.length]).set (front.length + 1 - 1) none)
      = (List.map (some : Nat → Option Nat) (List.range (front.length + 1))).eraseIdx i := by
    rw [Nat.add_sub_cancel, List.set_append_right _ _ (by omega)]
    exact List.take_left' hX
  have hheap : (front ++ [{ last with Completed := true }]).length = front.length + 1 := by
    simp
  have hpend : marshalOrders (front ++ [{ last with Completed := true }])
      ((List.map (some : Nat → Option Nat) (List.range (front.length + 1))).eraseIdx i)
      = (front ++ [{ last with Completed := true }]).eraseIdx i := by
    have hall := marshalOrders_range (front ++ [{ last with Completed := true }])
    rw [hheap] at hall
    unfold marshalOrders at hall ⊢
    rw [filterMap_eraseIdx, hall]
    intro p hp
    obtain ⟨k, hk, rfl⟩ := List.mem_map.mp hp
    have hk' : k < front.length + 1 := List.mem_range.mp hk
    simp only [Option.some_bind]
    rw [List.getElem?_eq_getElem (by rw [hheap]; exact hk')]
    rfl
  have hcomp : marshalOrders
      ((front ++ [{ last with Completed := true }]) ++ fs (completedFileName restLink))
      ((List.range (fs (completedFileName restLink)).length).map
          (fun k => some ((front ++ [{ last with Completed := true }]).length + k))
        ++ [some front.length])
      = fs (completedFileName restLink) ++ [{ last with Completed := true }] := by
    have hall := marshalOrders_fresh (fs (completedFileName restLink))
      (front ++ [{ last with Completed := true }]) []
    rw [List.append_nil] at hall
    unfold marshalOrders at hall ⊢
    rw [List.filterMap_append, hall]
    have hx : ((front ++ [{ last with Completed := true }])
        ++ fs (completedFileName restLink))[front.length]?
        = some { last with Completed := true } := by
      rw [List.append_assoc, List.getElem?_append_right (Nat.le_refl _)]
      simp
    simp only [List.filterMap_cons, List.filterMap_nil, Option.some_bind, hx]
  rw [hdrop, hget]
  simp only [htake, setCompleted_last, hpend, unmarshalOrders, writeFile, if_neg hne, hcomp]

/-- C1: the code at a pending record of three orders and index 0.  The order
appended to the completed record is the last pending order, not the order that
stood at index 0. -/
theorem OrderComplete_moves_last_order :
    (OrderComplete (storeOf [orderA, orderB, orderC]) "r" 0).2 = Outcome.redirect "/orders" ∧
    (OrderComplete (storeOf [orderA, orderB, orderC]) "r" 0).1 (completedFileName "r")
      = [{ orderC with Completed := true }] ∧
    (OrderComplete (storeOf [orderA, orderB, orderC]) "r" 0).1 (completedFileName "r")
      ≠ [{ orderA with Completed := true }] := by
  decide

/-- C2: the code at a pending record of three orders and index 0.  The pending
record written has the order of index 0 deleted and the other two in order, but
the last of them is written with `completed = true`. -/
theorem OrderComplete_marks_pending_order :
    (OrderComplete (storeOf [orderA, orderB, orderC]) "r" 0).1 (ordersFileName "r")
      = [orderB, { orderC with Completed := true }] ∧
    (OrderComplete (storeOf [orderA, orderB, orderC]) "r" 0).1 (ordersFileName "r")
      ≠ [orderB, orderC] := by
  decide

/-- C3, as stated, fails: at a pending record of one order and index 1 the
handler is unwound by the run-time panic `slice bounds out of range [2:1]`; it
reports no error of its own. -/
theorem OrderComplete_no_explicit_error :
    (OrderComplete (storeOf [orderA]) "r" 1).2
      = Outcome.runtimePanic (RuntimePanic.sliceBoundsOutOfRange 2 1) ∧
    ¬ ∃ (status : Nat) (message : String),
        (OrderComplete (storeOf [orderA]) "r" 1).2 = Outcome.httpError status message := by
  refine ⟨by decide, ?_⟩
  rintro ⟨status, message, h⟩
  have h1 : (OrderComplete (storeOf [orderA]) "r" 1).2
      = Outcome.runtimePanic (RuntimePanic.sliceBoundsOutOfRange 2 1) := by decide
  rw [h1] at h
  cases h

/-- C3, amended. For a pending record of length `n` and an index `i >= n`,
`OrderComplete` is unwound by the run-time panic `slice bounds out of range`
(raised by `orders[index+1:]` when `i = n`, by `orders[index:]` when `i > n`)
before anything is written: every record of the order store, the pending and the
completed record of the restaurant among them, is unchanged. -/
theorem OrderComplete_out_of_range (fs : Files) (restLink : String) (index : Int)
    (h : ((fs (ordersFileName restLink)).length : Int) ≤ index) :
    (OrderComplete fs restLink index).1 = fs ∧
    (OrderComplete fs restLink index).2
      = Outcome.runtimePanic (RuntimePanic.sliceBoundsOutOfRange
          (if ((fs (ordersFileName restLink)).length : Int) < index then index
            else index + 1)
          (fs (ordersFileName restLink)).length) := by
  have hn : 0 ≤ index := le_trans (Int.ofNat_nonneg _) h
  by_cases hlt : ((fs (ordersFileName restLink)).length : Int) < index
  · simp [OrderComplete, OrdersGet, unmarshalOrders, hlt]
  · have h1 : ¬ index < 0 := by omega
    have h2 : ((fs (ordersFileName restLink)).length : Int) < index + 1 := by omega
    simp [OrderComplete, OrdersGet, unmarshalOrders, hlt, h1, h2]

/-- C3, amended, at a pending record of three orders and index 5. -/
theorem OrderComplete_out_of_range_witness :
    (OrderComplete (storeOf [orderA, orderB, orderC]) "r" 5).1
      = storeOf [orderA, orderB, orderC] ∧
    (OrderComplete (storeOf [orderA, orderB, orderC]) "r" 5).2
      = Outcome.runtimePanic (RuntimePanic.sliceBoundsOutOfRange
          (if ((storeOf [orderA, orderB, orderC] (ordersFileName "r")).length : Int) < 5
            then 5 else 5 + 1)
          (storeOf [orderA, orderB, orderC] (ordersFileName "r")).length) :=
  OrderComplete_out_of_range (storeOf [orderA, orderB, orderC]) "r" 5 (by decide)

end Deliveryx
